import Mathlib

set_option maxHeartbeats 1000000

/-!  Verification development for the ballistic core of WT-FCSGenerator
(`src/tools/fcsgen/core/src/ballistic.rs`).

The embedding uses exact rationals for every f64 quantity.  The four
transcendental operations used by the source (`f64::sqrt`, `f64::powf`,
`f64::cos`, `f64::sin`) have no exact rational counterpart, so the model is
parameterised by an arbitrary `FloatOps` bundle supplying them; every theorem
below holds for every choice of these functions, hence in particular for the
real IEEE-754 ones.  The inner `while y >= 0.0` loop is modelled with an
explicit fuel parameter, and all structural theorems hold for every fuel.  -/

/-- Abstract bundle of the transcendental f64 operations used by the source. -/
structure FloatOps where
  sqrt : ℚ → ℚ
  powf : ℚ → ℚ → ℚ
  cos : ℚ → ℚ
  sin : ℚ → ℚ

-- ── Physics constants (ballistic.rs lines 16-25) ──────────────────────────
def G : ℚ := 9.80665
def DT : ℚ := 0.01
def P_ATM : ℚ := 101325
def T_GROUND : ℚ := 15
def M_AIR : ℚ := 0.0289652
def R_GAS : ℚ := 8.31446
def LAPSE_RATE : ℚ := 0.0065
def T_STD : ℚ := 288.15
def DEMARRE_REF_V : ℚ := 1900
def MAX_RANGE : ℚ := 4500

/-- Exact rational value of the f64 constant `std::f64::consts::PI`. -/
def PI64 : ℚ := 884279719003555 / 281474976710656

-- ── Atmospheric density lookup table (lines 29-48) ────────────────────────
def DENSITY_STEP : ℚ := 0.1
def DENSITY_TABLE_LEN : ℕ := 5001

-- ── DeMarre defaults (lines 51-54) ────────────────────────────────────────
def DEFAULT_K : ℚ := 0.9
def DEFAULT_SPEED_POW : ℚ := 1.43
def DEFAULT_MASS_POW : ℚ := 0.71
def DEFAULT_CALIBER_POW : ℚ := 1.07

-- ── Shell type classification (lines 57-62) ───────────────────────────────
def AP_TYPES : List String :=
  ["i", "t", "ac", "aphe", "aphebc", "ap", "sap", "sapi", "apc", "apbc",
   "apcbc", "sapcbc"]
def APHE_TYPES : List String := ["aphe", "aphebc", "ac", "sapcbc", "sap", "sapi"]
def SKIP_TYPES : List String := ["sam", "atgm", "rocket", "aam"]

-- ── Penalty tables (lines 65-79) ──────────────────────────────────────────
def PEN_BY_EXPL : List (ℚ × ℚ) :=
  [(0.0065, 1), (0.016, 0.93), (0.02, 0.9), (0.03, 0.85), (0.04, 0.75)]
def PEN_BY_SUBCALIBER : List (ℚ × ℚ) :=
  [(0, 0.25), (0.15, 0.4), (0.3, 0.5), (0.4, 0.75)]

/-- Intermediate row produced by the trajectory simulation (lines 82-86). -/
structure Row where
  distance : ℚ
  time : ℚ
  penetration : ℚ
  deriving DecidableEq, Repr

/-- Returns `true` if this shell type should be skipped entirely (line 90). -/
def should_skip (normalized_type : String) : Bool :=
  SKIP_TYPES.contains normalized_type

/-- Model of `f64::round`: round to nearest, ties away from zero. -/
def rustRound (q : ℚ) : ℚ :=
  if 0 ≤ q then ((⌊q + 1 / 2⌋ : ℤ) : ℚ) else ((⌈q - 1 / 2⌉ : ℤ) : ℚ)

/-- Model of an `f64 -> i64` cast: truncation toward zero. -/
def ratTrunc (q : ℚ) : ℤ := if 0 ≤ q then ⌊q⌋ else ⌈q⌉

/-- Round to nearest integer with ties to even, as Rust float `Display`
precision formatting does. -/
def roundHalfEven (q : ℚ) : ℤ :=
  let m := ⌊q + 1 / 2⌋
  if q + 1 / 2 = (m : ℚ) ∧ m % 2 ≠ 0 then m - 1 else m

/-- Left-pads a digit string with zeros up to width `d`. -/
def padZeros (d : ℕ) (s : String) : String :=
  if s.length < d then String.mk (List.replicate (d - s.length) '0') ++ s else s

/-- Model of Rust fixed-precision float formatting `{:.d}`. -/
def fmtFixed (d : ℕ) (q : ℚ) : String :=
  let n := roundHalfEven (q * (10 : ℚ) ^ d)
  let a := n.natAbs
  let sgn := if n < 0 then "-" else ""
  sgn ++ toString (a / 10 ^ d) ++ "." ++ padZeros d (toString (a % 10 ^ d))

/-- Format time for TSV output (lines 411-417).  Whole-second values print
with no decimal point, others with one decimal. -/
def fmt_time (t : ℚ) : String :=
  if |t - ((ratTrunc t : ℤ) : ℚ)| < 1 / 1000000000 then toString (ratTrunc t)
  else fmtFixed 1 t

/-- Format penetration for TSV output (lines 424-430).  The source's
infinity/NaN branch has no rational counterpart and is unreachable here. -/
def fmt_penetration (p : ℚ) : String := toString (ratTrunc p)

/-- Renders one row as the source's `"{:.3}\t{}\t{}\n"` line (lines 350-357). -/
def renderRow (r : Row) : String :=
  fmtFixed 3 r.distance ++ "\t" ++ fmt_time r.time ++ "\t"
    ++ fmt_penetration r.penetration ++ "\n"

/-- Concatenation of the rendered rows: the TSV output string. -/
def renderTable (rows : List Row) : String := String.join (rows.map renderRow)

/-- Window walk of `interpolate_table` (lines 380-387): scans consecutive
pairs in order, returning the last value when no window matches. -/
def interpTableAux : ℚ × ℚ → List (ℚ × ℚ) → ℚ → ℚ
  | (_, y0), [], _ => y0
  | (x0, y0), (x1, y1) :: rest, k =>
      if x0 ≤ k ∧ k < x1 then y0 + (y1 - y0) / (x1 - x0) * (k - x0)
      else interpTableAux (x1, y1) rest k

/-- Piecewise-linear table lookup (lines 376-388): below the first threshold
returns the first value, between thresholds interpolates, otherwise returns
the last value.  The source indexes `table[0]` unconditionally; the empty
case (unreachable: both call sites pass fixed non-empty tables) returns 0. -/
def interpolate_table : List (ℚ × ℚ) → ℚ → ℚ
  | [], _ => 0
  | (x0, y0) :: rest, k => if k < x0 then y0 else interpTableAux (x0, y0) rest k

/-- APHE explosive-filler penalty factor (lines 367-369). -/
def aphe_penalty (k : ℚ) : ℚ := interpolate_table PEN_BY_EXPL k

/-- Window walk of `interpolate_armor_power` (lines 396-402). -/
def interpArmorAux : ℚ × ℚ → List (ℚ × ℚ) → ℚ → ℚ
  | _, [], _ => 0
  | (d0, p0), (d1, p1) :: rest, d =>
      if d0 ≤ d ∧ d < d1 then p0 + (d - d0) / (d1 - d0) * (p1 - p0)
      else interpArmorAux (d1, p1) rest d

/-- Linear interpolation of the APDS-FS armor-power table (lines 395-404):
returns 0 when the distance falls outside all intervals, including the
empty-table case. -/
def interpolate_armor_power : List (ℚ × ℚ) → ℚ → ℚ
  | [], _ => 0
  | p0 :: rest, d => interpArmorAux p0 rest d

/-- Return `val` when it is non-zero, otherwise `default` (lines 433-435). -/
def non_zero_or (val default : ℚ) : ℚ := if val = 0 then default else val

-- ── Atmospheric density model (lines 39-48 and 263-272) ───────────────────

/-- Sea-level air density (line 228). -/
def rho_base : ℚ := P_ATM * M_AIR / R_GAS / (T_GROUND + 273.15)

/-- Barometric exponent (line 229). -/
def baro_exp : ℚ := G * M_AIR / R_GAS / LAPSE_RATE - 1

/-- Entry `i` of the precomputed density table (lines 42-47): the source
builds the `Vec` once; the model gives the same entries pointwise. -/
def densityEntry (ops : FloatOps) (i : ℕ) : ℚ :=
  rho_base * ops.powf (1 - LAPSE_RATE * ((i : ℚ) * DENSITY_STEP) / T_STD) baro_exp

/-- Density lookup with linear interpolation and closed-form fallback
(lines 263-272).  The `as usize` cast truncates toward zero and saturates at
0 for negative inputs, which `Int.toNat ∘ Int.floor` reproduces.  At the
upper end the source aborts instead of returning a value: once
`idx_f >= 2^64` the cast saturates to `usize::MAX`, so `idx + 1` overflows
in debug builds and `density[usize::MAX]` is indexed out of bounds in
release builds.  This total model keeps `idx` as an unbounded natural, so
that region silently takes the closed-form fallback; the source's abort
region is characterised separately by `densityIndexPanics`, and `densityAt`
models the non-panicking executions only. -/
def densityAt (ops : FloatOps) (y : ℚ) : ℚ :=
  let idx_f := y / DENSITY_STEP
  let idx : ℕ := (⌊idx_f⌋).toNat
  if idx + 1 < DENSITY_TABLE_LEN then
    let frac := idx_f - (idx : ℚ)
    densityEntry ops idx + frac * (densityEntry ops (idx + 1) - densityEntry ops idx)
  else
    rho_base * ops.powf (1 - LAPSE_RATE * y / T_STD) baro_exp

/-- Altitude region in which the source's density lookup aborts rather than
returning a value (lines 264-268): once `y / DENSITY_STEP` reaches `2^64`,
the `as usize` cast saturates to `usize::MAX`, whereupon `idx + 1` overflows
in debug builds and `density[usize::MAX]` is indexed out of bounds in
release builds — a panic either way. -/
def densityIndexPanics (y : ℚ) : Prop := (2 : ℚ) ^ 64 ≤ y / DENSITY_STEP

-- ── Trajectory integration (lines 254-298) ────────────────────────────────

/-- Integration state: velocities, position, time, and the previous-step
position used for the ground-crossing interpolation. -/
structure SimState where
  vx : ℚ
  vy : ℚ
  x : ℚ
  y : ℚ
  t : ℚ
  x0 : ℚ
  y0 : ℚ
  deriving DecidableEq, Repr

/-- One step of the inner Euler loop (lines 263-297), preserving the source's
sequential update order: `vx` first, then `vy` against the magnitude
recomputed from the already-updated `vx`, then position and time. -/
def stepState (ops : FloatOps) (drag_k : ℚ) (s : SimState) : SimState :=
  let ro := densityAt ops s.y
  let v_sq := s.vx * s.vx + s.vy * s.vy
  let accel := drag_k * ro * v_sq
  let v_mag := ops.sqrt v_sq
  let accel_per_v := accel / v_mag
  let vx1 := s.vx - accel_per_v * s.vx * DT
  let v_mag2 := ops.sqrt (vx1 * vx1 + s.vy * s.vy)
  let vy1 := s.vy + (-G - accel / v_mag2 * s.vy) * DT
  { vx := vx1, vy := vy1, x := s.x + vx1 * DT, y := s.y + vy1 * DT,
    t := s.t + DT, x0 := s.x, y0 := s.y }

/-- Fuelled model of the `while y >= 0.0` loop (line 259). -/
def simLoop (ops : FloatOps) (drag_k : ℚ) : ℕ → SimState → SimState
  | 0, s => s
  | fuel + 1, s =>
      if 0 ≤ s.y then simLoop ops drag_k fuel (stepState ops drag_k s) else s

-- ── Ballistic cache key (lines 123-166), rational-valued model ────────────

/-- Cache key capturing every `DataProjectile` field that influences
`compute_ballistic` output, plus the `sensitivity` parameter (lines 124-139).
In this numeric model each f64 field is carried as its rational value. -/
structure BallisticKey where
  normalized_type : String
  mass : ℚ
  ballistic_caliber : ℚ
  speed : ℚ
  cx : ℚ
  explosive_mass : ℚ
  damage_mass : ℚ
  damage_caliber : ℚ
  demarre_k : ℚ
  demarre_speed_pow : ℚ
  demarre_mass_pow : ℚ
  demarre_caliber_pow : ℚ
  armor_power_table : List (ℚ × ℚ)
  sensitivity : ℚ
  deriving DecidableEq

/-- Input projectile record (parser/data.rs lines 44-89): the physics fields
consumed by `compute_ballistic`, plus the metadata strings that are excluded
from the cache key. -/
structure DataProjectile where
  name : String
  bullet_type : String
  output_name : String
  normalized_type : String
  mass : ℚ
  ballistic_caliber : ℚ
  speed : ℚ
  cx : ℚ
  explosive_mass : ℚ
  damage_mass : ℚ
  damage_caliber : ℚ
  demarre_k : ℚ
  demarre_speed_pow : ℚ
  demarre_mass_pow : ℚ
  demarre_caliber_pow : ℚ
  armor_power_table : List (ℚ × ℚ)
  deriving DecidableEq

/-- Build a cache key from a projectile and the sensitivity (lines 144-165). -/
def BallisticKey.new (proj : DataProjectile) (sensitivity : ℚ) : BallisticKey :=
  { normalized_type := proj.normalized_type
    mass := proj.mass
    ballistic_caliber := proj.ballistic_caliber
    speed := proj.speed
    cx := proj.cx
    explosive_mass := proj.explosive_mass
    damage_mass := proj.damage_mass
    damage_caliber := proj.damage_caliber
    demarre_k := proj.demarre_k
    demarre_speed_pow := proj.demarre_speed_pow
    demarre_mass_pow := proj.demarre_mass_pow
    demarre_caliber_pow := proj.demarre_caliber_pow
    armor_power_table := proj.armor_power_table
    sensitivity := sensitivity }

-- ── Per-angle simulation and the angle sweep (lines 222-340) ──────────────

/-- Drag geometry factor (lines 236-237). -/
def drag_kOf (key : BallisticKey) : ℚ :=
  key.cx * PI64 * key.ballistic_caliber * key.ballistic_caliber / 8 / key.mass

/-- Muzzle state for one launch angle (lines 254-257). -/
def initState (ops : FloatOps) (key : BallisticKey) (angle : ℚ) : SimState :=
  { vx := key.speed * ops.cos angle, vy := key.speed * ops.sin angle,
    x := 0, y := 0, t := 0, x0 := 0, y0 := 0 }

/-- Final integration state for one launch angle. -/
def impactState (ops : FloatOps) (fuel : ℕ) (key : BallisticKey) (angle : ℚ) :
    SimState :=
  simLoop ops (drag_kOf key) fuel (initState ops key angle)

/-- Impact speed reported by the loop (line 305). -/
def impactSpeed (ops : FloatOps) (fuel : ℕ) (key : BallisticKey) (angle : ℚ) : ℚ :=
  let fs := impactState ops fuel key angle
  ops.sqrt (fs.vx * fs.vx + fs.vy * fs.vy)

/-- Interpolated ground-crossing distance (line 301). -/
def groundDistance (fs : SimState) : ℚ :=
  fs.x0 + (fs.x - fs.x0) / (fs.y - fs.y0) * (-fs.y0)

/-- One simulated row for one launch angle (lines 253-339): trajectory,
ground-crossing interpolation, time rounding, and the shell-family
penetration dispatch. -/
def rowAt (ops : FloatOps) (fuel : ℕ) (key : BallisticKey) (angle : ℚ) : Row :=
  let fs := impactState ops fuel key angle
  let distance := groundDistance fs
  let time := rustRound (fs.t * 10) / 10
  let v_impact := impactSpeed ops fuel key angle
  let k := non_zero_or key.demarre_k DEFAULT_K
  let speed_pow := non_zero_or key.demarre_speed_pow DEFAULT_SPEED_POW
  let mass_pow := non_zero_or key.demarre_mass_pow DEFAULT_MASS_POW
  let caliber_pow := non_zero_or key.demarre_caliber_pow DEFAULT_CALIBER_POW
  let penetration :=
    if AP_TYPES.contains key.normalized_type then
      let pen := k * ops.powf (v_impact / DEMARRE_REF_V) speed_pow
        * ops.powf key.mass mass_pow
        / ops.powf (key.ballistic_caliber * 10) caliber_pow * 100
      rustRound (if APHE_TYPES.contains key.normalized_type then
          pen * aphe_penalty (key.explosive_mass / key.mass)
        else pen)
    else if key.normalized_type = "apcr" ∨ key.normalized_type = "apds" then
      let ratio := key.damage_mass / key.mass
      let sub_k := interpolate_table PEN_BY_SUBCALIBER ratio
      let effective_mass := (key.mass - key.damage_mass) * sub_k + key.damage_mass
      rustRound (k * ops.powf (v_impact / DEMARRE_REF_V) speed_pow
        * ops.powf effective_mass mass_pow
        / ops.powf (key.damage_caliber * 10) caliber_pow * 100)
    else if key.normalized_type = "apds_fs" then
      rustRound (interpolate_armor_power key.armor_power_table distance)
    else 0
  { distance := distance, time := time, penetration := penetration }

/-- Angular step of the sweep (line 222). -/
def scroll_stepOf (sensitivity : ℚ) : ℚ := 2.8 * sensitivity * sensitivity

/-- Launch angle of the `i`-th sample (line 253). -/
def sampleAngle (sensitivity : ℚ) (i : ℕ) : ℚ :=
  scroll_stepOf sensitivity * (i : ℚ) / 1000

/-- Maximum sample count of the sweep (line 223); the `as usize` cast of the
floored f64 saturates at 0 for negative values. -/
def max_entriesOf (sensitivity : ℚ) : ℕ :=
  (⌊PI64 / 180 * 60 * 1000 / scroll_stepOf sensitivity⌋).toNat

/-- The angle sweep loop (lines 248-340): counts down the remaining entries,
breaking once the previous ground-crossing distance reached `MAX_RANGE`. -/
def sweepAux (ops : FloatOps) (fuel : ℕ) (key : BallisticKey) :
    ℕ → ℕ → ℚ → List Row
  | 0, _, _ => []
  | n + 1, i, last_distance =>
      if MAX_RANGE ≤ last_distance then []
      else
        let r := rowAt ops fuel key (sampleAngle key.sensitivity i)
        r :: sweepAux ops fuel key n (i + 1) r.distance

/-- All rows simulated for one key. -/
def simRowsOfKey (ops : FloatOps) (fuel : ℕ) (key : BallisticKey) : List Row :=
  sweepAux ops fuel key (max_entriesOf key.sensitivity) 0 0

/-- The emit loop's row selection (lines 344-359): keeps each row that has a
successor, stopping at the first distance decrease; fewer than two rows
yield nothing. -/
def emitRows : List Row → List Row
  | r1 :: r2 :: rest =>
      if r2.distance < r1.distance then [] else r1 :: emitRows (r2 :: rest)
  | _ => []

/-- Full table computation over the key fields (lines 211-362): the source's
`compute_ballistic` reads exactly the fields captured by `BallisticKey`, so
the embedding factors it through the key. -/
def computeOfKey (ops : FloatOps) (fuel : ℕ) (key : BallisticKey) : Option String :=
  if should_skip key.normalized_type ∨ key.sensitivity ≤ 0 then none
  else some (renderTable (emitRows (simRowsOfKey ops fuel key)))

/-- Compute the ballistic table for a single projectile (lines 211-362). -/
def compute_ballistic (ops : FloatOps) (fuel : ℕ) (proj : DataProjectile)
    (sensitivity : ℚ) : Option String :=
  computeOfKey ops fuel (BallisticKey.new proj sensitivity)

/-- Rows simulated for a projectile and sensitivity. -/
def simRows (ops : FloatOps) (fuel : ℕ) (proj : DataProjectile)
    (sensitivity : ℚ) : List Row :=
  simRowsOfKey ops fuel (BallisticKey.new proj sensitivity)

-- ── Ballistic cache (lines 177-203) ───────────────────────────────────────

/-- Model of `DashMap::get`: first association for the key, if any. -/
def cache_get : List (BallisticKey × Option String) → BallisticKey →
    Option (Option String)
  | [], _ => none
  | (k, v) :: rest, key => if k = key then some v else cache_get rest key

/-- Cached computation (lines 191-203): on hit return the stored result with
`true`, on miss compute, store, and return with `false`.  The mutated map is
returned explicitly. -/
def compute_ballistic_cached (ops : FloatOps) (fuel : ℕ) (proj : DataProjectile)
    (sensitivity : ℚ) (cache : List (BallisticKey × Option String)) :
    (Option String × Bool) × List (BallisticKey × Option String) :=
  let key := BallisticKey.new proj sensitivity
  match cache_get cache key with
  | some v => ((v, true), cache)
  | none =>
      let result := compute_ballistic ops fuel proj sensitivity
      ((result, false), (key, result) :: cache)

-- ── Bit-pattern cache-key model (lines 96-166) ────────────────────────────

/-- Bit-exact wrapper for f64 (lines 102-109).  An f64 value is identified
with its 64-bit pattern, under which `to_bits` is the identity; equality of
`F64Key` is equality of bit patterns, exactly as the derived Rust `Eq`. -/
structure F64Key where
  bits : ℕ
  deriving DecidableEq

/-- Projectile record in the bit-pattern representation: each f64 field is
carried as its IEEE-754 bit pattern. -/
structure DataProjectileBits where
  name : String
  bullet_type : String
  output_name : String
  normalized_type : String
  mass : ℕ
  ballistic_caliber : ℕ
  speed : ℕ
  cx : ℕ
  explosive_mass : ℕ
  damage_mass : ℕ
  damage_caliber : ℕ
  demarre_k : ℕ
  demarre_speed_pow : ℕ
  demarre_mass_pow : ℕ
  demarre_caliber_pow : ℕ
  armor_power_table : List (ℕ × ℕ)
  deriving DecidableEq

/-- Bit-pattern cache key (lines 124-139). -/
structure BallisticKeyBits where
  normalized_type : String
  mass : F64Key
  ballistic_caliber : F64Key
  speed : F64Key
  cx : F64Key
  explosive_mass : F64Key
  damage_mass : F64Key
  damage_caliber : F64Key
  demarre_k : F64Key
  demarre_speed_pow : F64Key
  demarre_mass_pow : F64Key
  demarre_caliber_pow : F64Key
  armor_power_table : List (F64Key × F64Key)
  sensitivity : F64Key
  deriving DecidableEq

/-- Build a bit-pattern cache key (lines 144-165). -/
def BallisticKeyBits.new (proj : DataProjectileBits) (sensitivity : ℕ) :
    BallisticKeyBits :=
  { normalized_type := proj.normalized_type
    mass := ⟨proj.mass⟩
    ballistic_caliber := ⟨proj.ballistic_caliber⟩
    speed := ⟨proj.speed⟩
    cx := ⟨proj.cx⟩
    explosive_mass := ⟨proj.explosive_mass⟩
    damage_mass := ⟨proj.damage_mass⟩
    damage_caliber := ⟨proj.damage_caliber⟩
    demarre_k := ⟨proj.demarre_k⟩
    demarre_speed_pow := ⟨proj.demarre_speed_pow⟩
    demarre_mass_pow := ⟨proj.demarre_mass_pow⟩
    demarre_caliber_pow := ⟨proj.demarre_caliber_pow⟩
    armor_power_table := proj.armor_power_table.map (fun p => (⟨p.1⟩, ⟨p.2⟩))
    sensitivity := ⟨sensitivity⟩ }

-- ── Shared helper lemmas ──────────────────────────────────────────────────

/-- The pair `a` and the pair `b` occur consecutively, in this order, in `t`. -/
def adjacentIn (t : List (ℚ × ℚ)) (a b : ℚ × ℚ) : Prop :=
  ∃ l1 l2, t = l1 ++ a :: b :: l2

/-- Breakpoint abscissae are strictly increasing. -/
def tableSorted (t : List (ℚ × ℚ)) : Prop :=
  t.Pairwise (fun u v => u.1 < v.1)

theorem emitRows_eats_last (rows : List Row) :
    ∃ tail, emitRows rows ++ tail = rows.dropLast := by
  induction rows with
  | nil => exact ⟨[], rfl⟩
  | cons r1 rest ih =>
    cases rest with
    | nil => exact ⟨[], rfl⟩
    | cons r2 rest2 =>
      by_cases h : r2.distance < r1.distance
      · exact ⟨(r1 :: r2 :: rest2).dropLast, by simp [emitRows, h]⟩
      · obtain ⟨tail, htail⟩ := ih
        exact ⟨tail, by simp [emitRows, h, htail]⟩

theorem emitRows_length_le (rows : List Row) :
    (emitRows rows).length ≤ rows.length - 1 := by
  obtain ⟨tail, htail⟩ := emitRows_eats_last rows
  have := congrArg List.length htail
  simp [List.length_append] at this
  omega

theorem emitRows_ne_nil (rows : List Row) (h : emitRows rows ≠ []) :
    2 ≤ rows.length := by
  match rows with
  | [] => simp [emitRows] at h
  | [r] => simp [emitRows] at h
  | r1 :: r2 :: rest => simp

theorem emitRows_of_short (rows : List Row) (h : rows.length < 2) :
    emitRows rows = [] := by
  match rows with
  | [] => rfl
  | [r] => rfl
  | r1 :: r2 :: rest => exact absurd h (by simp)

theorem renderTable_nil : renderTable [] = "" := rfl

theorem cache_get_mem (c : List (BallisticKey × Option String))
    (key : BallisticKey) (v : Option String) (h : cache_get c key = some v) :
    (key, v) ∈ c := by
  induction c with
  | nil => simp [cache_get] at h
  | cons kv rest ih =>
    obtain ⟨k, val⟩ := kv
    by_cases hk : k = key
    · subst hk
      simp [cache_get] at h
      simp [h]
    · simp [cache_get, hk] at h
      exact List.mem_cons_of_mem _ (ih h)

/-- Every entry of the cache holds exactly the table its key computes to.
Caches produced only by `compute_ballistic_cached` calls satisfy this. -/
def CacheConsistent (ops : FloatOps) (fuel : ℕ)
    (c : List (BallisticKey × Option String)) : Prop :=
  ∀ kv ∈ c, kv.2 = computeOfKey ops fuel kv.1

theorem sweepAux_length_le (ops : FloatOps) (fuel : ℕ) (key : BallisticKey) :
    ∀ (n i : ℕ) (last_distance : ℚ),
      (sweepAux ops fuel key n i last_distance).length ≤ n := by
  intro n
  induction n with
  | zero => intro i last; simp [sweepAux]
  | succ n ih =>
    intro i last
    by_cases h : MAX_RANGE ≤ last
    · simp [sweepAux, h]
    · simp only [sweepAux, if_neg h, List.length_cons]
      exact Nat.succ_le_succ (ih (i + 1) _)

theorem sweepAux_stopped (ops : FloatOps) (fuel : ℕ) (key : BallisticKey)
    (n i : ℕ) (last_distance : ℚ) (h : MAX_RANGE ≤ last_distance) :
    sweepAux ops fuel key n i last_distance = [] := by
  cases n with
  | zero => rfl
  | succ n => simp only [sweepAux, if_pos h]

theorem sweepAux_get (ops : FloatOps) (fuel : ℕ) (key : BallisticKey) :
    ∀ (n i : ℕ) (last_distance : ℚ) (j : ℕ)
      (hj : j < (sweepAux ops fuel key n i last_distance).length),
      (sweepAux ops fuel key n i last_distance).get ⟨j, hj⟩ =
        rowAt ops fuel key (sampleAngle key.sensitivity (i + j)) := by
  intro n
  induction n with
  | zero => intro i last j hj; simp [sweepAux] at hj
  | succ n ih =>
    intro i last j hj
    by_cases h : MAX_RANGE ≤ last
    · rw [sweepAux_stopped ops fuel key (n + 1) i last h] at hj
      simp at hj
    · have heq : sweepAux ops fuel key (n + 1) i last =
          rowAt ops fuel key (sampleAngle key.sensitivity i) ::
            sweepAux ops fuel key n (i + 1)
              (rowAt ops fuel key (sampleAngle key.sensitivity i)).distance := by
        simp only [sweepAux, if_neg h]
      rw [List.get_of_eq heq]
      cases j with
      | zero => simp
      | succ j =>
        have hj' : j < (sweepAux ops fuel key n (i + 1)
            (rowAt ops fuel key (sampleAngle key.sensitivity i)).distance).length := by
          have := hj
          rw [heq] at this
          simpa using this
        rw [List.get_cons_succ, ih (i + 1) _ j hj']
        congr 2
        omega

theorem sweepAux_stop (ops : FloatOps) (fuel : ℕ) (key : BallisticKey) :
    ∀ (n i : ℕ) (last_distance : ℚ) (l1 : List Row) (r : Row) (l2 : List Row),
      sweepAux ops fuel key n i last_distance = l1 ++ r :: l2 →
      MAX_RANGE ≤ r.distance → l2 = [] := by
  intro n
  induction n with
  | zero =>
    intro i last l1 r l2 heq _
    rw [sweepAux] at heq
    exact absurd heq.symm (List.append_ne_nil_of_right_ne_nil l1 (by simp))
  | succ n ih =>
    intro i last l1 r l2 heq hr
    by_cases h : MAX_RANGE ≤ last
    · rw [sweepAux, if_pos h] at heq
      exact absurd heq.symm (List.append_ne_nil_of_right_ne_nil l1 (by simp))
    · rw [sweepAux, if_neg h] at heq
      cases l1 with
      | nil =>
        simp only [List.nil_append, List.cons.injEq] at heq
        rw [← heq.2]
        exact sweepAux_stopped ops fuel key n (i + 1) _ (by rw [heq.1]; exact hr)
      | cons a l1 =>
        simp only [List.cons_append, List.cons.injEq] at heq
        exact ih (i + 1) _ l1 r l2 heq.2 hr

theorem interpTableAux_window (k : ℚ) :
    ∀ (rest : List (ℚ × ℚ)) (prev a b : ℚ × ℚ),
      (prev :: rest).Pairwise (fun u v => u.1 < v.1) →
      adjacentIn (prev :: rest) a b → prev.1 ≤ k → a.1 ≤ k → k < b.1 →
      interpTableAux prev rest k = a.2 + (b.2 - a.2) / (b.1 - a.1) * (k - a.1) := by
  intro rest
  induction rest with
  | nil =>
    intro prev a b _ hadj _ _ _
    obtain ⟨l1, l2, heq⟩ := hadj
    cases l1 <;> simp at heq
  | cons r rest ih =>
    intro prev a b hsort hadj hprev ha hb
    obtain ⟨l1, l2, heq⟩ := hadj
    obtain ⟨pa, pb⟩ := prev
    obtain ⟨ra, rb⟩ := r
    cases l1 with
    | nil =>
      simp only [List.nil_append, List.cons.injEq] at heq
      obtain ⟨h1, h2, _⟩ := heq
      subst h1 h2
      have hcond : pa ≤ k ∧ k < ra := ⟨ha, hb⟩
      simp only [interpTableAux, if_pos hcond]
    | cons c l1 =>
      simp only [List.cons_append, List.cons.injEq] at heq
      obtain ⟨-, heq2⟩ := heq
      have hmem : a ∈ (ra, rb) :: rest := by
        rw [heq2]
        exact List.mem_append_right _ (List.mem_cons_self _ _)
      have hra : ra ≤ k := by
        rcases List.mem_cons.mp hmem with hc | hc
        · rw [hc] at ha
          simpa using ha
        · have := (List.pairwise_cons.mp (List.pairwise_cons.mp hsort).2).1 a hc
          exact le_of_lt (lt_of_lt_of_le this ha)
      have hcond : ¬(pa ≤ k ∧ k < ra) := by
        intro hc
        exact absurd hc.2 (not_lt.mpr hra)
      simp only [interpTableAux, if_neg hcond]
      exact ih (ra, rb) a b (List.pairwise_cons.mp hsort).2 ⟨l1, l2, heq2⟩ hra ha hb

theorem interpolate_table_window (t : List (ℚ × ℚ)) (a b : ℚ × ℚ) (k : ℚ)
    (hsort : tableSorted t) (hadj : adjacentIn t a b) (ha : a.1 ≤ k)
    (hb : k < b.1) :
    interpolate_table t k = a.2 + (b.2 - a.2) / (b.1 - a.1) * (k - a.1) := by
  obtain ⟨l1, l2, heq⟩ := hadj
  cases t with
  | nil => cases l1 <;> simp at heq
  | cons hd rest =>
    have hhd : hd.1 ≤ k := by
      cases l1 with
      | nil =>
        simp only [List.nil_append, List.cons.injEq] at heq
        rw [heq.1]
        exact ha
      | cons c l1 =>
        simp only [List.cons_append, List.cons.injEq] at heq
        have hmem : a ∈ rest := by
          rw [heq.2]
          exact List.mem_append_right _ (List.mem_cons_self _ _)
        have := (List.pairwise_cons.mp hsort).1 a hmem
        exact le_of_lt (lt_of_lt_of_le this ha)
    obtain ⟨ha1, ha2⟩ := hd
    rw [interpolate_table, if_neg (not_lt.mpr hhd)]
    exact interpTableAux_window k rest (ha1, ha2) a b hsort ⟨l1, l2, heq⟩ hhd ha hb

theorem interpArmorAux_window (d : ℚ) :
    ∀ (rest : List (ℚ × ℚ)) (prev a b : ℚ × ℚ),
      (prev :: rest).Pairwise (fun u v => u.1 < v.1) →
      adjacentIn (prev :: rest) a b → prev.1 ≤ d → a.1 ≤ d → d < b.1 →
      interpArmorAux prev rest d = a.2 + (d - a.1) / (b.1 - a.1) * (b.2 - a.2) := by
  intro rest
  induction rest with
  | nil =>
    intro prev a b _ hadj _ _ _
    obtain ⟨l1, l2, heq⟩ := hadj
    cases l1 <;> simp at heq
  | cons r rest ih =>
    intro prev a b hsort hadj hprev ha hb
    obtain ⟨l1, l2, heq⟩ := hadj
    obtain ⟨pa, pb⟩ := prev
    obtain ⟨ra, rb⟩ := r
    cases l1 with
    | nil =>
      simp only [List.nil_append, List.cons.injEq] at heq
      obtain ⟨h1, h2, _⟩ := heq
      subst h1 h2
      have hcond : pa ≤ d ∧ d < ra := ⟨ha, hb⟩
      simp only [interpArmorAux, if_pos hcond]
    | cons c l1 =>
      simp only [List.cons_append, List.cons.injEq] at heq
      obtain ⟨-, heq2⟩ := heq
      have hmem : a ∈ (ra, rb) :: rest := by
        rw [heq2]
        exact List.mem_append_right _ (List.mem_cons_self _ _)
      have hra : ra ≤ d := by
        rcases List.mem_cons.mp hmem with hc | hc
        · rw [hc] at ha
          simpa using ha
        · have := (List.pairwise_cons.mp (List.pairwise_cons.mp hsort).2).1 a hc
          exact le_of_lt (lt_of_lt_of_le this ha)
      have hcond : ¬(pa ≤ d ∧ d < ra) := by
        intro hc
        exact absurd hc.2 (not_lt.mpr hra)
      simp only [interpArmorAux, if_neg hcond]
      exact ih (ra, rb) a b (List.pairwise_cons.mp hsort).2 ⟨l1, l2, heq2⟩ hra ha hb

theorem interpolate_armor_power_window (t : List (ℚ × ℚ)) (a b : ℚ × ℚ)
    (d : ℚ) (hsort : tableSorted t) (hadj : adjacentIn t a b) (ha : a.1 ≤ d)
    (hb : d < b.1) :
    interpolate_armor_power t d = a.2 + (d - a.1) / (b.1 - a.1) * (b.2 - a.2) := by
  obtain ⟨l1, l2, heq⟩ := hadj
  cases t with
  | nil => cases l1 <;> simp at heq
  | cons hd rest =>
    have hhd : hd.1 ≤ d := by
      cases l1 with
      | nil =>
        simp only [List.nil_append, List.cons.injEq] at heq
        rw [heq.1]
        exact ha
      | cons c l1 =>
        simp only [List.cons_append, List.cons.injEq] at heq
        have hmem : a ∈ rest := by
          rw [heq.2]
          exact List.mem_append_right _ (List.mem_cons_self _ _)
        have := (List.pairwise_cons.mp hsort).1 a hmem
        exact le_of_lt (lt_of_lt_of_le this ha)
    rw [interpolate_armor_power]
    exact interpArmorAux_window d rest hd a b hsort ⟨l1, l2, heq⟩ hhd ha hb

theorem interpArmorAux_outside (d : ℚ) :
    ∀ (rest : List (ℚ × ℚ)) (prev : ℚ × ℚ),
      (∀ u v, adjacentIn (prev :: rest) u v → ¬(u.1 ≤ d ∧ d < v.1)) →
      interpArmorAux prev rest d = 0 := by
  intro rest
  induction rest with
  | nil =>
    intro prev _
    obtain ⟨pa, pb⟩ := prev
    rfl
  | cons r rest ih =>
    intro prev hout
    obtain ⟨pa, pb⟩ := prev
    obtain ⟨ra, rb⟩ := r
    have hcond : ¬((pa, pb).1 ≤ d ∧ d < (ra, rb).1) :=
      hout (pa, pb) (ra, rb) ⟨[], rest, rfl⟩
    simp only [interpArmorAux, if_neg hcond]
    exact ih (ra, rb) (fun u v ⟨l1, l2, heq⟩ =>
      hout u v ⟨(pa, pb) :: l1, l2, by rw [heq, List.cons_append]⟩)

theorem interpolate_armor_power_outside (t : List (ℚ × ℚ)) (d : ℚ)
    (hout : ∀ u v, adjacentIn t u v → ¬(u.1 ≤ d ∧ d < v.1)) :
    interpolate_armor_power t d = 0 := by
  cases t with
  | nil => rfl
  | cons hd rest =>
    rw [interpolate_armor_power]
    exact interpArmorAux_outside d rest hd hout

-- ── Concrete inputs used by witnesses and counterexamples ─────────────────

/-- Concrete instantiation of the abstract float operations, used only to
evaluate the model at witness inputs. -/
def ceOps : FloatOps :=
  { sqrt := fun q => q, powf := fun b _ => b, cos := fun _ => 1, sin := fun _ => 0 }

/-- Concrete AP round: all four DeMarre fields zero, no drag (`cx = 0`). -/
def ce_ap : DataProjectile :=
  { name := "a", bullet_type := "ap", output_name := "a", normalized_type := "ap",
    mass := 1, ballistic_caliber := 1 / 10, speed := 10, cx := 0,
    explosive_mass := 0, damage_mass := 0, damage_caliber := 0,
    demarre_k := 0, demarre_speed_pow := 0, demarre_mass_pow := 0,
    demarre_caliber_pow := 0, armor_power_table := [] }

/-- Concrete fin-stabilized sabot round with a two-point armor-power table. -/
def ce_fs : DataProjectile :=
  { name := "f", bullet_type := "apds_fs", output_name := "f",
    normalized_type := "apds_fs",
    mass := 1, ballistic_caliber := 1 / 10, speed := 10, cx := 0,
    explosive_mass := 0, damage_mass := 0, damage_caliber := 0,
    demarre_k := 0, demarre_speed_pow := 0, demarre_mass_pow := 0,
    demarre_caliber_pow := 0, armor_power_table := [(1, 10), (2, 20)] }

/-- Concrete ops for the panic-reachability theorem: `sin` is the constant
`1/5`, inside the range of the real sine at the sample angle used below
(sin 0.21 ≈ 0.2085 ≥ 1/5). -/
def bugOps : FloatOps :=
  { sqrt := fun q => q, powf := fun b _ => b, cos := fun _ => 1,
    sin := fun _ => 1 / 5 }

/-- Concrete record that drives the density lookup into its abort region: a
missing `Cx` field parses to 0 (zero drag) and the muzzle speed is
`10^21` m/s. -/
def ce_bug : DataProjectile :=
  { name := "b", bullet_type := "ap", output_name := "b", normalized_type := "ap",
    mass := 1, ballistic_caliber := 1 / 10, speed := 10 ^ 21, cx := 0,
    explosive_mass := 0, damage_mass := 0, damage_caliber := 0,
    demarre_k := 0, demarre_speed_pow := 0, demarre_mass_pow := 0,
    demarre_caliber_pow := 0, armor_power_table := [] }

/-- Concrete skip-listed record (guided missile family). -/
def ce_skip : DataProjectile :=
  { name := "s", bullet_type := "atgm", output_name := "s",
    normalized_type := "atgm",
    mass := 1, ballistic_caliber := 1 / 10, speed := 10, cx := 0,
    explosive_mass := 0, damage_mass := 0, damage_caliber := 0,
    demarre_k := 0, demarre_speed_pow := 0, demarre_mass_pow := 0,
    demarre_caliber_pow := 0, armor_power_table := [] }

-- ── Claim theorems ────────────────────────────────────────────────────────

/-- C2.  Every step of the inner Euler loop updates the horizontal velocity
first, by subtracting the drag projection computed through the velocity
ratio `drag/|v| * vx * dt` (no arctangent appears); then recomputes the
velocity magnitude from the already-updated horizontal component together
with the old vertical component; uses that recomputed magnitude in the
vertical update (gravity plus drag's vertical projection); and advances
position and time only after both velocity updates, with the fixed timestep
`DT = 0.01 s`. -/
theorem C2_euler_step_order (ops : FloatOps) (drag_k : ℚ) (s : SimState) :
    DT = 1 / 100 ∧
    stepState ops drag_k s =
      (let accel := drag_k * densityAt ops s.y * (s.vx * s.vx + s.vy * s.vy)
       let vx1 := s.vx - accel / ops.sqrt (s.vx * s.vx + s.vy * s.vy) * s.vx * DT
       let v_mag2 := ops.sqrt (vx1 * vx1 + s.vy * s.vy)
       let vy1 := s.vy + (-G - accel / v_mag2 * s.vy) * DT
       { vx := vx1, vy := vy1, x := s.x + vx1 * DT, y := s.y + vy1 * DT,
         t := s.t + DT, x0 := s.x, y0 := s.y }) := by
  constructor
  · norm_num [DT]
  · rfl

/-- C8.  Two cache keys built from `(record, sensitivity)` pairs are equal
iff the normalized type strings agree and every physics-relevant f64 field
(mass, ballistic caliber, speed, drag coefficient, explosive mass, core mass
and caliber, the four DeMarre parameters, every armor-power-curve pair, and
sensitivity) has an identical IEEE-754 bit pattern; in particular one
flipped bit in any such field yields a different key. -/
theorem C8_key_bit_equality (p q : DataProjectileBits) (s s' : ℕ) :
    BallisticKeyBits.new p s = BallisticKeyBits.new q s' ↔
      (p.normalized_type = q.normalized_type ∧ p.mass = q.mass ∧
       p.ballistic_caliber = q.ballistic_caliber ∧ p.speed = q.speed ∧
       p.cx = q.cx ∧ p.explosive_mass = q.explosive_mass ∧
       p.damage_mass = q.damage_mass ∧ p.damage_caliber = q.damage_caliber ∧
       p.demarre_k = q.demarre_k ∧ p.demarre_speed_pow = q.demarre_speed_pow ∧
       p.demarre_mass_pow = q.demarre_mass_pow ∧
       p.demarre_caliber_pow = q.demarre_caliber_pow ∧
       p.armor_power_table = q.armor_power_table ∧ s = s') := by
  constructor
  · intro h
    simp only [BallisticKeyBits.new, BallisticKeyBits.mk.injEq, F64Key.mk.injEq] at h
    obtain ⟨h1, h2, h3, h4, h5, h6, h7, h8, h9, h10, h11, h12, h13, h14⟩ := h
    refine ⟨h1, h2, h3, h4, h5, h6, h7, h8, h9, h10, h11, h12, ?_, h14⟩
    have hinj : Function.Injective
        (fun pr : ℕ × ℕ => ((⟨pr.1⟩ : F64Key), (⟨pr.2⟩ : F64Key))) := by
      intro u v huv
      simp only [Prod.ext_iff, F64Key.mk.injEq] at huv
      exact Prod.ext huv.1 huv.2
    exact List.map_injective_iff.mpr hinj h13
  · intro h
    obtain ⟨h1, h2, h3, h4, h5, h6, h7, h8, h9, h10, h11, h12, h13, h14⟩ := h
    simp only [BallisticKeyBits.new, BallisticKeyBits.mk.injEq, F64Key.mk.injEq]
    exact ⟨h1, h2, h3, h4, h5, h6, h7, h8, h9, h10, h11, h12, by rw [h13], h14⟩

/-- C10.  The emit loop renders one line per emitted row and iterates only
over rows that have a successor: the emitted rows form an initial segment of
the simulated rows with the last one removed, so at most `N - 1` lines
appear for `N` simulated rows, the final simulated row is never emitted, and
a non-empty rendered table needs at least 2 simulated rows. -/
theorem C10_emit_drops_last_row (ops : FloatOps) (fuel : ℕ)
    (proj : DataProjectile) (sensitivity : ℚ) (rows : List Row) :
    (∃ tail, emitRows rows ++ tail = rows.dropLast) ∧
    (emitRows rows).length ≤ rows.length - 1 ∧
    (emitRows rows ≠ [] → 2 ≤ rows.length) ∧
    (∀ out, compute_ballistic ops fuel proj sensitivity = some out → out ≠ "" →
      2 ≤ (simRows ops fuel proj sensitivity).length) := by
  refine ⟨emitRows_eats_last rows, emitRows_length_le rows, emitRows_ne_nil rows, ?_⟩
  intro out hout hne
  unfold compute_ballistic computeOfKey at hout
  by_cases hskip : should_skip (BallisticKey.new proj sensitivity).normalized_type ∨
      (BallisticKey.new proj sensitivity).sensitivity ≤ 0
  · rw [if_pos hskip] at hout
    exact absurd hout (by simp)
  · rw [if_neg hskip] at hout
    have hrows : emitRows (simRowsOfKey ops fuel (BallisticKey.new proj sensitivity)) ≠ [] := by
      intro hnil
      apply hne
      have := hout
      rw [hnil] at this
      simp only [Option.some.injEq] at this
      rw [← this]
      rfl
    exact emitRows_ne_nil _ hrows

/-- C3.  Against any cache whose entries each hold the value their key
computes to (which is all caches produced only by earlier get-or-compute
calls), `compute_ballistic_cached` returns exactly `compute_ballistic` of the
same inputs and leaves the cache consistent; and from an empty cache the
first call reports a miss while the second call returns the identical result
and reports a hit. -/
theorem C3_cache_equivalence (ops : FloatOps) (fuel : ℕ) (proj : DataProjectile)
    (sensitivity : ℚ) (cache : List (BallisticKey × Option String))
    (hc : CacheConsistent ops fuel cache) :
    ((compute_ballistic_cached ops fuel proj sensitivity cache).1.1 =
        compute_ballistic ops fuel proj sensitivity ∧
      CacheConsistent ops fuel
        (compute_ballistic_cached ops fuel proj sensitivity cache).2) ∧
    (compute_ballistic_cached ops fuel proj sensitivity []).1 =
      (compute_ballistic ops fuel proj sensitivity, false) ∧
    (compute_ballistic_cached ops fuel proj sensitivity
        ((compute_ballistic_cached ops fuel proj sensitivity []).2)).1 =
      (compute_ballistic ops fuel proj sensitivity, true) := by
  have hkey : compute_ballistic ops fuel proj sensitivity =
      computeOfKey ops fuel (BallisticKey.new proj sensitivity) := rfl
  refine ⟨?_, ?_, ?_⟩
  · cases h : cache_get cache (BallisticKey.new proj sensitivity) with
    | none =>
      refine ⟨by simp [compute_ballistic_cached, h], ?_⟩
      intro kv hkv
      simp only [compute_ballistic_cached, h] at hkv
      rcases List.mem_cons.mp hkv with hkv | hkv
      · rw [hkv]
        exact hkey
      · exact hc kv hkv
    | some v =>
      have hv : v = computeOfKey ops fuel (BallisticKey.new proj sensitivity) :=
        hc _ (cache_get_mem cache _ v h)
      constructor
      · simp only [compute_ballistic_cached, h]
        rw [hv, hkey]
      · simp only [compute_ballistic_cached, h]
        exact hc
  · simp [compute_ballistic_cached, cache_get]
  · simp [compute_ballistic_cached, cache_get]

/-- Witness for C3 at the empty cache and a concrete AP record. -/
theorem C3_cache_equivalence_witness :
    CacheConsistent ceOps 2 [] ∧
    (((compute_ballistic_cached ceOps 2 ce_ap 10 []).1.1 =
        compute_ballistic ceOps 2 ce_ap 10 ∧
      CacheConsistent ceOps 2 (compute_ballistic_cached ceOps 2 ce_ap 10 []).2) ∧
     (compute_ballistic_cached ceOps 2 ce_ap 10 []).1 =
       (compute_ballistic ceOps 2 ce_ap 10, false) ∧
     (compute_ballistic_cached ceOps 2 ce_ap 10
         ((compute_ballistic_cached ceOps 2 ce_ap 10 []).2)).1 =
       (compute_ballistic ceOps 2 ce_ap 10, true)) :=
  have hc : CacheConsistent ceOps 2 [] := fun kv h => absurd h (List.not_mem_nil kv)
  ⟨hc, C3_cache_equivalence ceOps 2 ce_ap 10 [] hc⟩

/-- C7 names a code bug: the error-handling contract promises that no input
ever raises an error, and the density lookup's own fallback comment says
extreme altitudes are handled by the closed-form formula — but the source
panics on a reachable input.  With zero drag (`Cx` missing parses to 0) and
muzzle speed `10^21` m/s at sensitivity `1/2`, angle sample 300 lies inside
the sweep range, the record passes the skip/sensitivity guard, and its first
Euler step (all quantities finite) leaves the projectile with `y >= 0` in
the density lookup's abort region, so the next loop iteration panics in the
source (`idx + 1` overflow in debug, `density[usize::MAX]` out of bounds in
release) instead of producing a row. -/
theorem C7_density_panic_input :
    ¬(should_skip ce_bug.normalized_type ∨ (1 / 2 : ℚ) ≤ 0) ∧
    300 < max_entriesOf (1 / 2) ∧
    0 ≤ (stepState bugOps (drag_kOf (BallisticKey.new ce_bug (1 / 2)))
        (initState bugOps (BallisticKey.new ce_bug (1 / 2))
          (sampleAngle (1 / 2) 300))).y ∧
    densityIndexPanics
      (stepState bugOps (drag_kOf (BallisticKey.new ce_bug (1 / 2)))
        (initState bugOps (BallisticKey.new ce_bug (1 / 2))
          (sampleAngle (1 / 2) 300))).y := by
  refine ⟨?_, ?_, ?_, ?_⟩
  · with_unfolding_all exact of_decide_eq_true rfl
  · with_unfolding_all exact of_decide_eq_true rfl
  · with_unfolding_all exact of_decide_eq_true rfl
  · unfold densityIndexPanics
    with_unfolding_all exact of_decide_eq_true rfl

/-- C4.  For every positive sensitivity `s`: the `j`-th simulated sample uses
the launch angle `2.8 * s^2 * j / 1000` (angular step `2.8 * s^2` in the
source data's milliradian-scaled units), the number of samples never exceeds
the fixed maximum scan angle (the 60-degree equivalent) divided by that step,
and no further sample is simulated after a sample whose ground-crossing
distance reaches `MAX_RANGE = 4500`. -/
theorem C4_angle_sweep_bounds (ops : FloatOps) (fuel : ℕ) (proj : DataProjectile)
    (s : ℚ) (hs : 0 < s) :
    (∀ j (hj : j < (simRows ops fuel proj s).length),
        (simRows ops fuel proj s).get ⟨j, hj⟩ =
          rowAt ops fuel (BallisticKey.new proj s) (2.8 * s * s * (j : ℚ) / 1000)) ∧
    ((simRows ops fuel proj s).length : ℚ) ≤
      PI64 / 180 * 60 * 1000 / (2.8 * s * s) ∧
    (∀ l1 r l2, simRows ops fuel proj s = l1 ++ r :: l2 →
        MAX_RANGE ≤ r.distance → l2 = []) := by
  refine ⟨?_, ?_, ?_⟩
  · intro j hj
    unfold simRows simRowsOfKey at hj ⊢
    rw [sweepAux_get ops fuel (BallisticKey.new proj s) _ 0 0 j hj]
    congr 1
    simp [sampleAngle, scroll_stepOf, BallisticKey.new]
  · have hq : (0 : ℚ) ≤ PI64 / 180 * 60 * 1000 / scroll_stepOf s := by
      apply div_nonneg
      · norm_num [PI64]
      · unfold scroll_stepOf
        positivity
    have hlen : (simRows ops fuel proj s).length ≤ max_entriesOf s :=
      sweepAux_length_le ops fuel (BallisticKey.new proj s) _ 0 0
    have h1 : ((max_entriesOf s : ℕ) : ℚ) =
        ((⌊PI64 / 180 * 60 * 1000 / scroll_stepOf s⌋ : ℤ) : ℚ) := by
      rw [max_entriesOf, ← Int.cast_natCast,
        Int.toNat_of_nonneg (Int.floor_nonneg.mpr hq)]
    have h2 : ((simRows ops fuel proj s).length : ℚ) ≤ ((max_entriesOf s : ℕ) : ℚ) := by
      exact_mod_cast hlen
    refine h2.trans ?_
    rw [h1]
    exact (Int.floor_le _).trans (le_of_eq (by rw [scroll_stepOf]))
  · intro l1 r l2 heq hr
    exact sweepAux_stop ops fuel (BallisticKey.new proj s) _ 0 0 l1 r l2 heq hr

/-- Witness for C4 at sensitivity 10 and a concrete AP record. -/
theorem C4_angle_sweep_bounds_witness :
    (0 : ℚ) < 10 ∧
    ((simRows ceOps 2 ce_ap 10).length : ℚ) ≤
      PI64 / 180 * 60 * 1000 / (2.8 * 10 * 10) :=
  ⟨by norm_num, (C4_angle_sweep_bounds ceOps 2 ce_ap 10 (by norm_num)).2.1⟩

theorem rowAt_penetration_ap (ops : FloatOps) (fuel : ℕ) (key : BallisticKey)
    (angle : ℚ) (h : AP_TYPES.contains key.normalized_type = true) :
    (rowAt ops fuel key angle).penetration =
      rustRound
        (non_zero_or key.demarre_k DEFAULT_K
          * ops.powf (impactSpeed ops fuel key angle / DEMARRE_REF_V)
            (non_zero_or key.demarre_speed_pow DEFAULT_SPEED_POW)
          * ops.powf key.mass (non_zero_or key.demarre_mass_pow DEFAULT_MASS_POW)
          / ops.powf (key.ballistic_caliber * 10)
            (non_zero_or key.demarre_caliber_pow DEFAULT_CALIBER_POW)
          * 100
          * (if APHE_TYPES.contains key.normalized_type then
              aphe_penalty (key.explosive_mass / key.mass) else 1)) := by
  by_cases ha : APHE_TYPES.contains key.normalized_type
  · simp only [rowAt, h, ha, if_true]
  · have ha' : APHE_TYPES.contains key.normalized_type = false := by
      simpa using ha
    simp only [rowAt, h, ha', if_true, Bool.false_eq_true, if_false]
    exact congrArg rustRound (by ring)

/-- C1 (amended).  For every projectile whose normalized type is in the AP
family, the penetration of the `j`-th row equals
`K * (V_impact / 1900)^speedExp * mass^massExp / (caliber * 10)^caliberExp * 100`
times the APHE penalty factor when the type is explosive-filled, rounded
half-away-from-zero — where the base of the caliber power is the record's
ballistic caliber (stored in metres) multiplied by 10, NOT the caliber
expressed in millimetres, and each DeMarre parameter falls back to its fixed
default (0.9, 1.43, 0.71, 1.07) exactly when the record supplies zero. -/
theorem C1_ap_demarre_penetration (ops : FloatOps) (fuel : ℕ)
    (proj : DataProjectile) (s : ℚ) (j : ℕ)
    (hj : j < (simRows ops fuel proj s).length)
    (hap : proj.normalized_type ∈ AP_TYPES) :
    ((simRows ops fuel proj s).get ⟨j, hj⟩).penetration =
      rustRound
        (non_zero_or proj.demarre_k DEFAULT_K
          * ops.powf (impactSpeed ops fuel (BallisticKey.new proj s)
              (sampleAngle s j) / DEMARRE_REF_V)
            (non_zero_or proj.demarre_speed_pow DEFAULT_SPEED_POW)
          * ops.powf proj.mass (non_zero_or proj.demarre_mass_pow DEFAULT_MASS_POW)
          / ops.powf (proj.ballistic_caliber * 10)
            (non_zero_or proj.demarre_caliber_pow DEFAULT_CALIBER_POW)
          * 100
          * (if proj.normalized_type ∈ APHE_TYPES then
              aphe_penalty (proj.explosive_mass / proj.mass) else 1)) := by
  unfold simRows simRowsOfKey at hj ⊢
  rw [sweepAux_get ops fuel (BallisticKey.new proj s) _ 0 0 j hj,
    rowAt_penetration_ap ops fuel _ _ (by simpa [BallisticKey.new] using hap)]
  simp [BallisticKey.new, sampleAngle]

/-- Counterexample to C1 as stated: with the caliber expressed in
millimetres (metres times 1000, as the claim and the data model's metre unit
dictate), the formula value differs from the penetration the code computes —
the code multiplies the caliber by 10, not 1000.  Here the first simulated
row of a concrete AP round carries penetration 5, while the claim's formula
evaluates to 0. -/
theorem C1_caliber_mm_counterexample :
    ce_ap.normalized_type ∈ AP_TYPES ∧
    ((simRows ceOps 2 ce_ap 10).map Row.penetration).head? = some 5 ∧
    rustRound
      (non_zero_or ce_ap.demarre_k DEFAULT_K
        * ceOps.powf (impactSpeed ceOps 2 (BallisticKey.new ce_ap 10)
            (sampleAngle 10 0) / DEMARRE_REF_V)
          (non_zero_or ce_ap.demarre_speed_pow DEFAULT_SPEED_POW)
        * ceOps.powf ce_ap.mass (non_zero_or ce_ap.demarre_mass_pow DEFAULT_MASS_POW)
        / ceOps.powf (ce_ap.ballistic_caliber * 1000)
          (non_zero_or ce_ap.demarre_caliber_pow DEFAULT_CALIBER_POW)
        * 100
        * (if ce_ap.normalized_type ∈ APHE_TYPES then
            aphe_penalty (ce_ap.explosive_mass / ce_ap.mass) else 1)) = 0 ∧
    (5 : ℚ) ≠ 0 := by
  refine ⟨by with_unfolding_all exact of_decide_eq_true rfl, ?_, ?_, by norm_num⟩
  · with_unfolding_all rfl
  · with_unfolding_all rfl

/-- Witness for C1 (amended) at the concrete AP record, first row. -/
theorem C1_ap_demarre_penetration_witness :
    (0 < (simRows ceOps 2 ce_ap 10).length ∧ ce_ap.normalized_type ∈ AP_TYPES) ∧
    ((simRows ceOps 2 ce_ap 10).get
        ⟨0, by with_unfolding_all exact of_decide_eq_true rfl⟩).penetration =
      rustRound
        (non_zero_or ce_ap.demarre_k DEFAULT_K
          * ceOps.powf (impactSpeed ceOps 2 (BallisticKey.new ce_ap 10)
              (sampleAngle 10 0) / DEMARRE_REF_V)
            (non_zero_or ce_ap.demarre_speed_pow DEFAULT_SPEED_POW)
          * ceOps.powf ce_ap.mass (non_zero_or ce_ap.demarre_mass_pow DEFAULT_MASS_POW)
          / ceOps.powf (ce_ap.ballistic_caliber * 10)
            (non_zero_or ce_ap.demarre_caliber_pow DEFAULT_CALIBER_POW)
          * 100
          * (if ce_ap.normalized_type ∈ APHE_TYPES then
              aphe_penalty (ce_ap.explosive_mass / ce_ap.mass) else 1)) :=
  ⟨⟨by with_unfolding_all exact of_decide_eq_true rfl,
    by with_unfolding_all exact of_decide_eq_true rfl⟩,
   C1_ap_demarre_penetration ceOps 2 ce_ap 10 0 _
     (by with_unfolding_all exact of_decide_eq_true rfl)⟩

/-- Witness for C10 on a concrete two-row list with increasing distances. -/
theorem C10_emit_drops_last_row_witness :
    emitRows [Row.mk 0 0 0, Row.mk 1 0 0] ≠ [] ∧
    2 ≤ ([Row.mk 0 0 0, Row.mk 1 0 0] : List Row).length :=
  ⟨by with_unfolding_all exact of_decide_eq_true rfl,
   (C10_emit_drops_last_row ceOps 2 ce_ap 10 [Row.mk 0 0 0, Row.mk 1 0 0]).2.2.1
     (by with_unfolding_all exact of_decide_eq_true rfl)⟩

theorem rustRound_zero : rustRound 0 = 0 := by norm_num [rustRound]

theorem sweepAux_mem (ops : FloatOps) (fuel : ℕ) (key : BallisticKey)
    (n i : ℕ) (last_distance : ℚ) (r : Row)
    (hr : r ∈ sweepAux ops fuel key n i last_distance) :
    ∃ m, r = rowAt ops fuel key (sampleAngle key.sensitivity m) := by
  obtain ⟨⟨j, hj⟩, hget⟩ := List.mem_iff_get.mp hr
  exact ⟨i + j, by rw [← hget, sweepAux_get]⟩

theorem rowAt_penetration_apds_fs (ops : FloatOps) (fuel : ℕ)
    (key : BallisticKey) (angle : ℚ) (h : key.normalized_type = "apds_fs") :
    (rowAt ops fuel key angle).penetration =
      rustRound (interpolate_armor_power key.armor_power_table
        (rowAt ops fuel key angle).distance) := by
  have h1 : AP_TYPES.contains key.normalized_type = false := by
    rw [h]
    with_unfolding_all rfl
  have h2 : ¬(key.normalized_type = "apcr" ∨ key.normalized_type = "apds") := by
    rw [h]
    with_unfolding_all exact of_decide_eq_true rfl
  simp only [rowAt, h1, Bool.false_eq_true, if_false, if_neg h2, if_pos h]

/-- C6.  For every fin-stabilized sabot (`apds_fs`) projectile, a row's
penetration is not produced by the DeMarre formula but is the rounded linear
interpolation of the record's ordered (distance, penetration) breakpoint
sequence at the row's ground-crossing distance, and it is 0 whenever that
distance lies outside every breakpoint interval — in particular whenever the
sequence is empty. -/
theorem C6_apds_fs_interpolation (ops : FloatOps) (fuel : ℕ)
    (proj : DataProjectile) (s : ℚ) (r : Row)
    (hfs : proj.normalized_type = "apds_fs")
    (hr : r ∈ simRows ops fuel proj s) :
    r.penetration =
      rustRound (interpolate_armor_power proj.armor_power_table r.distance) ∧
    (proj.armor_power_table = [] → r.penetration = 0) ∧
    ((∀ u v, adjacentIn proj.armor_power_table u v →
        ¬(u.1 ≤ r.distance ∧ r.distance < v.1)) → r.penetration = 0) := by
  unfold simRows simRowsOfKey at hr
  obtain ⟨m, rfl⟩ := sweepAux_mem ops fuel (BallisticKey.new proj s) _ 0 0 _ hr
  have hpen := rowAt_penetration_apds_fs ops fuel (BallisticKey.new proj s)
    (sampleAngle (BallisticKey.new proj s).sensitivity m)
    (by simpa [BallisticKey.new] using hfs)
  have htab : (BallisticKey.new proj s).armor_power_table = proj.armor_power_table := rfl
  rw [htab] at hpen
  refine ⟨hpen, ?_, ?_⟩
  · intro hnil
    rw [hpen, hnil]
    exact rustRound_zero
  · intro hout
    rw [hpen, interpolate_armor_power_outside _ _ hout]
    exact rustRound_zero

/-- Witness for C6: the first simulated row of a concrete `apds_fs` record
with table `[(1, 10), (2, 20)]` lands at distance 0, outside every
breakpoint interval, and its penetration is the interpolated value 0. -/
theorem C6_apds_fs_interpolation_witness :
    ce_fs.normalized_type = "apds_fs" ∧
    (Row.mk 0 0 0) ∈ simRows ceOps 2 ce_fs 10 ∧
    (Row.mk 0 0 0).penetration =
      rustRound (interpolate_armor_power ce_fs.armor_power_table
        (Row.mk 0 0 0).distance) :=
  have hmem : (Row.mk 0 0 0) ∈ simRows ceOps 2 ce_fs 10 := by
    with_unfolding_all exact of_decide_eq_true rfl
  ⟨rfl, hmem, (C6_apds_fs_interpolation ceOps 2 ce_fs 10 (Row.mk 0 0 0) rfl hmem).1⟩

theorem PEN_BY_EXPL_sorted : tableSorted PEN_BY_EXPL := by
  unfold tableSorted PEN_BY_EXPL
  norm_num [List.pairwise_cons]

theorem PEN_BY_SUBCALIBER_sorted : tableSorted PEN_BY_SUBCALIBER := by
  unfold tableSorted PEN_BY_SUBCALIBER
  norm_num [List.pairwise_cons]

/-- C5 (amended).  The shared `interpolate_table` helper gives the claimed
policy on the two fixed penalty tables: below the first breakpoint the first
value, at or above the last breakpoint the last value, and the exact linear
interpolation between adjacent breakpoints.  The armor-power table, however,
interpolates only between adjacent breakpoints and returns 0 — not the
first/last defined value — whenever the query lies outside every breakpoint
interval. -/
theorem C5_table_lookup_policy (k d : ℚ) (t : List (ℚ × ℚ)) (a b : ℚ × ℚ) :
    (k < 0.0065 → interpolate_table PEN_BY_EXPL k = 1) ∧
    (0.04 ≤ k → interpolate_table PEN_BY_EXPL k = 0.75) ∧
    (adjacentIn PEN_BY_EXPL a b → a.1 ≤ k → k < b.1 →
      interpolate_table PEN_BY_EXPL k =
        a.2 + (b.2 - a.2) / (b.1 - a.1) * (k - a.1)) ∧
    (k < 0 → interpolate_table PEN_BY_SUBCALIBER k = 0.25) ∧
    (0.4 ≤ k → interpolate_table PEN_BY_SUBCALIBER k = 0.75) ∧
    (adjacentIn PEN_BY_SUBCALIBER a b → a.1 ≤ k → k < b.1 →
      interpolate_table PEN_BY_SUBCALIBER k =
        a.2 + (b.2 - a.2) / (b.1 - a.1) * (k - a.1)) ∧
    (tableSorted t → adjacentIn t a b → a.1 ≤ d → d < b.1 →
      interpolate_armor_power t d =
        a.2 + (d - a.1) / (b.1 - a.1) * (b.2 - a.2)) ∧
    ((∀ u v, adjacentIn t u v → ¬(u.1 ≤ d ∧ d < v.1)) →
      interpolate_armor_power t d = 0) := by
  refine ⟨?_, ?_, ?_, ?_, ?_, ?_, ?_, ?_⟩
  · intro hk
    simp only [PEN_BY_EXPL, interpolate_table, if_pos hk]
  · intro hk
    simp only [PEN_BY_EXPL, interpolate_table, interpTableAux]
    rw [if_neg (by rintro h; linarith : ¬(k < (0.0065 : ℚ))),
      if_neg (by rintro ⟨-, h⟩; linarith : ¬((0.0065 : ℚ) ≤ k ∧ k < 0.016)),
      if_neg (by rintro ⟨-, h⟩; linarith : ¬((0.016 : ℚ) ≤ k ∧ k < 0.02)),
      if_neg (by rintro ⟨-, h⟩; linarith : ¬((0.02 : ℚ) ≤ k ∧ k < 0.03)),
      if_neg (by rintro ⟨-, h⟩; linarith : ¬((0.03 : ℚ) ≤ k ∧ k < 0.04))]
  · intro hadj ha hb
    exact interpolate_table_window PEN_BY_EXPL a b k PEN_BY_EXPL_sorted hadj ha hb
  · intro hk
    simp only [PEN_BY_SUBCALIBER, interpolate_table, if_pos hk]
  · intro hk
    simp only [PEN_BY_SUBCALIBER, interpolate_table, interpTableAux]
    rw [if_neg (by rintro h; linarith : ¬(k < (0 : ℚ))),
      if_neg (by rintro ⟨-, h⟩; linarith : ¬((0 : ℚ) ≤ k ∧ k < 0.15)),
      if_neg (by rintro ⟨-, h⟩; linarith : ¬((0.15 : ℚ) ≤ k ∧ k < 0.3)),
      if_neg (by rintro ⟨-, h⟩; linarith : ¬((0.3 : ℚ) ≤ k ∧ k < 0.4))]
  · intro hadj ha hb
    exact interpolate_table_window PEN_BY_SUBCALIBER a b k
      PEN_BY_SUBCALIBER_sorted hadj ha hb
  · intro hsort hadj ha hb
    exact interpolate_armor_power_window t a b d hsort hadj ha hb
  · intro hout
    exact interpolate_armor_power_outside t d hout

/-- Counterexample to C5 as stated: the armor-power breakpoint table is one
of the lookup tables the calculator uses, yet querying it below its first
breakpoint returns 0, not the first defined value (here 10). -/
theorem C5_armor_table_counterexample :
    (0 : ℚ) < 1 ∧
    interpolate_armor_power [((1 : ℚ), (10 : ℚ)), (2, 20)] 0 = 0 ∧
    (0 : ℚ) ≠ 10 := by
  refine ⟨by norm_num, ?_, by norm_num⟩
  with_unfolding_all rfl

/-- Witness for C5: the explosive-filler table interpolated strictly between
its first two breakpoints, and an armor-power query outside every interval. -/
theorem C5_table_lookup_policy_witness :
    adjacentIn PEN_BY_EXPL (0.0065, 1) (0.016, 0.93) ∧
    ((((0.0065 : ℚ), (1 : ℚ)) : ℚ × ℚ).1 ≤ (0.01 : ℚ) ∧
      ((0.01 : ℚ) < (((0.016 : ℚ), (0.93 : ℚ)) : ℚ × ℚ).1)) ∧
    interpolate_table PEN_BY_EXPL 0.01 =
      1 + (0.93 - 1) / (0.016 - 0.0065) * (0.01 - 0.0065) :=
  have hadj : adjacentIn PEN_BY_EXPL (0.0065, 1) (0.016, 0.93) :=
    ⟨[], [(0.02, 0.9), (0.03, 0.85), (0.04, 0.75)], rfl⟩
  have ha : (((0.0065 : ℚ), (1 : ℚ)) : ℚ × ℚ).1 ≤ (0.01 : ℚ) := by
    with_unfolding_all exact of_decide_eq_true rfl
  have hb : (0.01 : ℚ) < (((0.016 : ℚ), (0.93 : ℚ)) : ℚ × ℚ).1 := by
    with_unfolding_all exact of_decide_eq_true rfl
  ⟨hadj, ⟨ha, hb⟩,
    (C5_table_lookup_policy 0.01 0 [] (0.0065, 1) (0.016, 0.93)).2.2.1 hadj ha hb⟩
